import Mathlib

/-!
Shallow embedding of `scripts/matrix_to_ideogram_annots.py` (inferCNV):
converts a clustered gene-expression matrix, a genomic-position table and
per-cluster cell-membership files into Ideogram.js annotation data.

Python floats are modelled as `ℚ`; Python `dict`s as insertion-ordered
association lists; fallible operations return `Except PipeErr`.  Error
constructors follow Python's exception taxonomy at the relevant sites:
`KeyError`/`IndexError` (both subclasses of `LookupError`) become
`PipeErr.lookup`, `statistics.StatisticsError` on empty data becomes
`PipeErr.data`, `ValueError` from `float()`/`int()`/unpacking becomes
`PipeErr.parse`, the cluster-arity `ValueError` of `get_clusters_meta`
becomes `PipeErr.config`, and unreadable files become `PipeErr.ioErr`.
-/

namespace InferCNV

/-! ## Models of the Python primitives used by the script -/

/-- Model of Python `str.strip()`: remove leading and trailing whitespace. -/
def pyStrip (s : String) : String :=
  ⟨((s.data.dropWhile Char.isWhitespace).reverse.dropWhile Char.isWhitespace).reverse⟩

/-- Model of Python `str.strip('"')`: remove leading and trailing `"` characters. -/
def stripQuotes (s : String) : String :=
  ⟨((s.data.dropWhile (· == '"')).reverse.dropWhile (· == '"')).reverse⟩

/-- Split a character list at each non-overlapping occurrence of `sep`,
left to right, keeping empty pieces.  `fuel` bounds recursion depth;
`(length + 1)` fuel is always enough when `sep` is nonempty. -/
def splitListAux (sep : List Char) : Nat → List Char → List Char → List (List Char)
  | 0, s, cur => [cur.reverse ++ s]
  | fuel+1, s, cur =>
    match s with
    | [] => [cur.reverse]
    | c :: rest =>
      if sep.isPrefixOf s then cur.reverse :: splitListAux sep fuel (s.drop sep.length) []
      else splitListAux sep fuel rest (c :: cur)

/-- Model of Python `str.split(sep)` with an explicit (nonempty) separator.
(Python raises `ValueError` on an empty separator; the call sites of the
script always pass a nonempty one.) -/
def pySplit (s : String) (sep : String) : List String :=
  if sep.data = [] then [s]
  else (splitListAux sep.data (s.data.length + 1) s.data []).map String.mk

/-- Model of Python `str.split()` (no argument): split on whitespace runs,
discarding empty tokens. -/
def pySplitWs (s : String) : List String :=
  ((s.data.splitOnP Char.isWhitespace).filter (· ≠ [])).map String.mk

/-- Model of Python `str.replace(old, new)`:
`new.join(s.split(old))`. -/
def pyReplace (s old new : String) : String :=
  String.intercalate new (pySplit s old)

/-- Model of Python list subscription `l[i]` with an `Int` index:
negative indices wrap around from the end; out-of-range indices are an
`IndexError` (here `none`). -/
def pyIdx {α : Type} (l : List α) (i : Int) : Option α :=
  if 0 ≤ i then l.get? i.toNat
  else if (l.length : Int) + i < 0 then none
  else l.get? ((l.length : Int) + i).toNat

/-- Numeric value of a decimal digit character. -/
def digitVal (c : Char) : Nat := c.toNat - '0'.toNat

/-- Parse a nonempty all-digit character list as a natural number. -/
def parseDigits (cs : List Char) : Option Nat :=
  if cs = [] then none
  else if cs.all Char.isDigit then some (cs.foldl (fun acc c => acc * 10 + digitVal c) 0)
  else none

/-- Decimal parts of an unsigned float literal (`digits`,
`digits.digits`, `.digits` or `digits.`): integer part, fractional part,
number of fractional digits. -/
def parseUnsignedParts (cs : List Char) : Option (Nat × Nat × Nat) :=
  match cs.splitOnP (· == '.') with
  | [ip] => (parseDigits ip).map (fun n => (n, 0, 0))
  | [ip, fp] =>
    if ip = [] ∧ fp = [] then none
    else
      match (if ip = [] then some 0 else parseDigits ip),
            (if fp = [] then some 0 else parseDigits fp) with
      | some i, some f => some (i, f, fp.length)
      | _, _ => none
  | _ => none

/-- Sign and decimal parts of a float literal. -/
def parseFloatParts (s : String) : Option (Bool × Nat × Nat × Nat) :=
  match (pyStrip s).data with
  | '-' :: rest => (parseUnsignedParts rest).map (fun p => (true, p))
  | '+' :: rest => (parseUnsignedParts rest).map (fun p => (false, p))
  | cs => (parseUnsignedParts cs).map (fun p => (false, p))

/-- The rational denoted by sign and decimal parts. -/
def floatOfParts (p : Bool × Nat × Nat × Nat) : ℚ :=
  (cond p.1 (-1) 1) * ((p.2.1 : ℚ) + (p.2.2.1 : ℚ) / 10 ^ p.2.2.2)

/-- Model of Python `float(token)` on the plain decimal literals produced
by inferCNV (optional sign, digits, optional fractional part; exponent
forms do not occur in this data).  `none` models `ValueError`. -/
def parseFloat (s : String) : Option ℚ :=
  (parseFloatParts s).map floatOfParts

/-- Model of Python `int(token)`: optional sign and nonempty digits. -/
def parseInt (s : String) : Option Int :=
  match (pyStrip s).data with
  | '-' :: rest => (parseDigits rest).map (fun n => -(n : Int))
  | '+' :: rest => (parseDigits rest).map (fun n => (n : Int))
  | cs => (parseDigits cs).map (fun n => (n : Int))

/-- Round to the nearest integer, ties to the even integer — the rounding
used by Python's built-in `round`. -/
def roundHalfEven (q : ℚ) : ℤ :=
  let f := ⌊q⌋
  let r := q - f
  if r < 1/2 then f
  else if 1/2 < r then f + 1
  else if f % 2 = 0 then f else f + 1

/-- Model of Python `round(q, 3)`. -/
def round3 (q : ℚ) : ℚ := (roundHalfEven (q * 1000) : ℚ) / 1000

/-- Error taxonomy of the pipeline (see module docstring). -/
inductive PipeErr : Type
  | config : String → PipeErr
  | ioErr : String → PipeErr
  | parse : String → PipeErr
  | lookup : String → PipeErr
  | data : String → PipeErr
deriving DecidableEq, Repr

/-- Model of Python `statistics.mean`: raises `StatisticsError` (a
`PipeErr.data`) on an empty sequence, otherwise the exact arithmetic
mean. -/
def pyMean (l : List ℚ) : Except PipeErr ℚ :=
  if l = [] then .error (.data "mean requires at least one data point")
  else .ok (l.sum / l.length)

/-- Model of Python `dict` assignment `d[k] = v` on an insertion-ordered
association list: an existing key keeps its position and gets the new
value, a new key is appended. -/
def dictInsert {β : Type} : List (String × β) → String → β → List (String × β)
  | [], k, v => [(k, v)]
  | (k', v') :: rest, k, v =>
    if k' = k then (k, v) :: rest else (k', v') :: dictInsert rest k v

/-! ## Data model -/

/-- One record of the genomic-position table, as `get_genes` stores it:
`start`/`stop` are kept as strings and parsed with `int()` only later, in
`get_ideogram_annots`. -/
structure GeneRec : Type where
  id : String
  chr : String
  start : String
  stop : String
deriving DecidableEq, Repr

/-- The `em_dict` built by `get_expression_matrix_dict`: the `cells`
dict (normalized cell identifier → column position) and the `genes`
dict (gene identifier → per-cell expression values). -/
structure EMDict : Type where
  cells : List (String × Nat)
  genes : List (String × List ℚ)
deriving DecidableEq, Repr

/-- One data row of the `scores_lists` built by
`compute_gene_expression_means`: `[gene, mean_all, mean_cluster_1, ...]`
with `means = mean_all :: cluster means`. -/
structure ScoreRow : Type where
  gene : String
  means : List ℚ
deriving DecidableEq, Repr

/-- One emitted annotation `[gene_id, start, length, mean_all, ...]`. -/
structure Annot : Type where
  name : String
  start : Int
  length : Int
  means : List ℚ
deriving DecidableEq, Repr

/-- The final structure `{keys: [...], annots: [{chr, annots}, ...]}`;
chromosome buckets are kept in first-seen order. -/
structure IdeoOut : Type where
  keys : List String
  annots : List (String × List Annot)
deriving DecidableEq, Repr

/-! ## `get_genes`: the Position Table Loader -/

/-- One line of the position file: `line.strip().split()` then the
four-way unpacking `id, chr, start, stop = columns` (a `ValueError`
unless exactly four fields). -/
def parseGeneLine (line : String) : Except PipeErr GeneRec :=
  match pySplitWs (pyStrip line) with
  | [i, c, st, sp] => .ok ⟨i, c, st, sp⟩
  | _ => .error (.parse line)

/-- The `for line in lines` loop of `get_genes`, with the dict built so
far as accumulator. -/
def getGenesGo (acc : List (String × GeneRec)) :
    List String → Except PipeErr (List (String × GeneRec))
  | [] => .ok acc
  | line :: rest =>
    match parseGeneLine line with
    | .error e => .error e
    | .ok g => getGenesGo (dictInsert acc g.id g) rest

/-- Model of `get_genes`: fold the position-file lines into the `genes` dict
(duplicate ids silently overwrite, keeping the first position). -/
def getGenes (lines : List String) : Except PipeErr (List (String × GeneRec)) :=
  getGenesGo [] lines

/-! ## `get_expression_matrix_dict`: the Expression Matrix Loader -/

/-- Header-token normalization of `get_expression_matrix_dict`:
`cell.strip('"').split('PREVIZ.')[1].replace('.', '-')`.  `none` models
the `IndexError` when the token does not contain `PREVIZ.`. -/
def normalizeCell (tok : String) : Option String :=
  ((pySplit (stripQuotes tok) "PREVIZ.").get? 1).map (fun c => pyReplace c "." "-")

/-- The `for i, cell in enumerate(cells_list)` loop: build the cells
dict, assigning each normalized header token its enumeration index. -/
def buildCellsGo (acc : List (String × Nat)) (i : Nat) :
    List String → Except PipeErr (List (String × Nat))
  | [] => .ok acc
  | t :: ts =>
    match normalizeCell t with
    | none => .error (.lookup t)
    | some c => buildCellsGo (dictInsert acc c i) (i+1) ts

/-- The cells dict of `get_expression_matrix_dict`. -/
def buildCellsDict (tokens : List String) : Except PipeErr (List (String × Nat)) :=
  buildCellsGo [] 0 tokens

/-- Model of `list(map(float, columns[1:]))`: parse every value token, aborting
on the first `ValueError`. -/
def parseFloats : List String → Option (List ℚ)
  | [] => some []
  | t :: ts =>
    match parseFloat t with
    | none => none
    | some q =>
      match parseFloats ts with
      | none => none
      | some qs => some (q :: qs)

/-- One matrix data row: first token (quotes stripped) is the gene id,
the remaining tokens are parsed with `float()`. -/
def parseMatrixRow (delim : String) (line : String) :
    Except PipeErr (String × List ℚ) :=
  match pySplit (pyStrip line) delim with
  | [] => .error (.parse line)
  | tok :: vals =>
    match parseFloats vals with
    | none => .error (.parse line)
    | some qs => .ok (stripQuotes tok, qs)

/-- The `for line in lines[1:]` loop of `get_expression_matrix_dict`,
with the genes dict built so far as accumulator. -/
def buildGenesGo (delim : String) (acc : List (String × List ℚ)) :
    List String → Except PipeErr (List (String × List ℚ))
  | [] => .ok acc
  | line :: rest =>
    match parseMatrixRow delim line with
    | .error e => .error e
    | .ok gq => buildGenesGo delim (dictInsert acc gq.1 gq.2) rest

/-- Fold the matrix data rows into the genes dict. -/
def buildGenes (delim : String) (lines : List String) :
    Except PipeErr (List (String × List ℚ)) :=
  buildGenesGo delim [] lines

/-- Model of `get_expression_matrix_dict`: header row → cells dict, remaining
rows → genes dict.  An empty file is an `IndexError` on `lines[0]`. -/
def getExpressionMatrixDict (lines : List String) (delim : String) :
    Except PipeErr EMDict :=
  match lines with
  | [] => .error (.lookup "lines")
  | headerLine :: rest =>
    match buildCellsDict (pySplit (pyStrip headerLine) delim) with
    | .error e => .error e
    | .ok cells =>
      match buildGenes delim rest with
      | .error e => .error e
      | .ok genes => .ok ⟨cells, genes⟩

/-! ## `get_clusters` / `get_clusters_meta`: the Cluster Membership Loader -/

/-- Model of `get_clusters_meta`: validate the name/path arity, then build the
`clusters_meta` dict.  The arity check precedes everything else in
`__main__`, in particular all file access. -/
def getClustersMeta (names paths : List String) :
    Except PipeErr (List (String × String)) :=
  if names.length ≠ paths.length then
    .error (.config "Number of cluster names must equal length of cluster paths")
  else
    .ok ((names.zip paths).foldl (fun d np => dictInsert d np.1 np.2) [])

/-- First whitespace token of each membership line; a blank line is an
`IndexError` on `line.split()[0]`. -/
def clusterCells : List String → Except PipeErr (List String)
  | [] => .ok []
  | line :: rest =>
    match pySplitWs line with
    | [] => .error (.lookup line)
    | c :: _ =>
      match clusterCells rest with
      | .error e => .error e
      | .ok cs => .ok (c :: cs)

/-- The `for line in lines[3:]` loop of `get_clusters`: skip the 3-line
header, then collect the first token of every line. -/
def parseClusterLines (lines : List String) : Except PipeErr (List String) :=
  clusterCells (lines.drop 3)

/-! ## `compute_gene_expression_means`: the Expression Aggregator -/

/-- The inner `for cluster_cell in cluster['cells']` loop: look up the
cell's column position, subtract one, and index the gene's
expression-value list with Python subscript semantics.  `KeyError` and
`IndexError` (both `LookupError`s) abort at the first offending cell. -/
def clusterExpressions (vals : List ℚ) (cells : List (String × Nat)) :
    List String → Except PipeErr (List ℚ)
  | [] => .ok []
  | c :: rest =>
    match List.lookup c cells with
    | none => .error (.lookup c)
    | some i =>
      match pyIdx vals ((i : Int) - 1) with
      | none => .error (.lookup c)
      | some v =>
        match clusterExpressions vals cells rest with
        | .error e => .error e
        | .ok vs => .ok (v :: vs)

/-- One cluster's entry in a score row:
`round(mean(cluster_expressions), 3)`. -/
def clusterScore (vals : List ℚ) (cells : List (String × Nat))
    (members : List String) : Except PipeErr ℚ :=
  match clusterExpressions vals cells members with
  | .error e => .error e
  | .ok es =>
    match pyMean es with
    | .error e => .error e
    | .ok m => .ok (round3 m)

/-- The `for name in clusters` loop: cluster scores in declaration
order. -/
def clusterScores (vals : List ℚ) (cells : List (String × Nat)) :
    List (String × List String) → Except PipeErr (List ℚ)
  | [] => .ok []
  | cl :: rest =>
    match clusterScore vals cells cl.2 with
    | .error e => .error e
    | .ok s =>
      match clusterScores vals cells rest with
      | .error e => .error e
      | .ok ss => .ok (s :: ss)

/-- The outer `for i, gene in enumerate(gene_expression_lists)` loop:
for each gene, `mean_all` over the full row first, then the cluster
scores. -/
def geneRows (cells : List (String × Nat)) (clusters : List (String × List String)) :
    List (String × List ℚ) → Except PipeErr (List ScoreRow)
  | [] => .ok []
  | gv :: rest =>
    match pyMean gv.2 with
    | .error e => .error e
    | .ok m =>
      match clusterScores gv.2 cells clusters with
      | .error e => .error e
      | .ok ss =>
        match geneRows cells clusters rest with
        | .error e => .error e
        | .ok rows => .ok (⟨gv.1, round3 m :: ss⟩ :: rows)

/-- Model of `compute_gene_expression_means` on an already-loaded matrix: the
header row `['name', 'all'] + cluster_names` followed by one score row
per gene, in matrix order. -/
def computeGeneExpressionMeans (matrix : EMDict)
    (clusters : List (String × List String)) :
    Except PipeErr (List String × List ScoreRow) :=
  match geneRows matrix.cells clusters matrix.genes with
  | .error e => .error e
  | .ok rows => .ok ("name" :: "all" :: clusters.map Prod.fst, rows)

/-! ## `get_ideogram_annots`: the Annotation Assembler -/

/-- Model of `annots_by_chr[chr].append(annot)` with lazy bucket creation: an
existing chromosome bucket keeps its (first-seen) position, a new one is
appended. -/
def bucketAppend : List (String × List Annot) → String → Annot →
    List (String × List Annot)
  | [], chr, a => [(chr, [a])]
  | (c, as) :: rest, chr, a =>
    if c = chr then (c, as ++ [a]) :: rest
    else (c, as) :: bucketAppend rest chr a

/-- The `for i, expression_mean in enumerate(expression_means[1:])`
loop: look the gene up in the genes dict (`KeyError` if absent), parse
`start`/`stop` with `int()`, compute `length = stop - start`, and append
the annotation to its chromosome bucket. -/
def assembleAnnots (table : List (String × GeneRec))
    (acc : List (String × List Annot)) :
    List ScoreRow → Except PipeErr (List (String × List Annot))
  | [] => .ok acc
  | row :: rest =>
    match List.lookup row.gene table with
    | none => .error (.lookup row.gene)
    | some grec =>
      match parseInt grec.start with
      | none => .error (.parse grec.start)
      | some st =>
        match parseInt grec.stop with
        | none => .error (.parse grec.stop)
        | some sp =>
          assembleAnnots table
            (bucketAppend acc grec.chr ⟨row.gene, st, sp - st, row.means⟩) rest

/-- Model of `get_ideogram_annots` on already-computed score rows (the Python
method consumes `expression_means[1:]`, i.e. the data rows): the keys
header plus the chromosome buckets in first-seen order. -/
def getIdeogramAnnots (table : List (String × GeneRec))
    (clusterNames : List String) (scoreRows : List ScoreRow) :
    Except PipeErr IdeoOut :=
  match assembleAnnots table [] scoreRows with
  | .error e => .error e
  | .ok buckets =>
    .ok ⟨["name", "start", "length", "all"] ++ clusterNames, buckets⟩

/-! ## The whole run, with its file I/O as an explicit event trace -/

/-- The file system the run sees: a path either yields its lines or is
unreadable. -/
structure FS : Type where
  read : String → Option (List String)

/-- File accesses, in program order: every `open(path)` for reading and
the single `open(output_file, 'w')` of `write_ideogram_annots`. -/
inductive IOEvent : Type
  | openRead : String → IOEvent
  | openWrite : String → IOEvent
deriving DecidableEq, Repr

/-- The `for name in clusters` loop of `get_clusters`: open each
cluster file in declaration order, recording the reads that actually
happen before any failure. -/
def getClustersTr (fs : FS) :
    List (String × String) →
    Except PipeErr (List (String × List String)) × List IOEvent
  | [] => (.ok [], [])
  | (name, path) :: rest =>
    match fs.read path with
    | none => (.error (.ioErr path), [.openRead path])
    | some lines =>
      match parseClusterLines lines with
      | .error e => (.error e, [.openRead path])
      | .ok cells =>
        match getClustersTr fs rest with
        | (.error e, evs) => (.error e, .openRead path :: evs)
        | (.ok cls, evs) => (.ok ((name, cells) :: cls), .openRead path :: evs)

/-- The full run after argument parsing, in source order:
`get_clusters_meta` (no I/O), then the constructor's `get_clusters`
(cluster files) and `get_genes` (position file), then
`write_ideogram_annots` → `get_ideogram_annots` →
`compute_gene_expression_means` → `get_expression_matrix_dict` (matrix
file), and only after the complete annotation structure is built is the
output file opened for writing. -/
def runMain (fs : FS) (matrixPath delim posPath : String)
    (names paths : List String) (outPath : String) :
    Except PipeErr IdeoOut × List IOEvent :=
  match getClustersMeta names paths with
  | .error e => (.error e, [])
  | .ok meta =>
    match getClustersTr fs meta with
    | (.error e, cevs) => (.error e, cevs)
    | (.ok clusters, cevs) =>
      match fs.read posPath with
      | none => (.error (.ioErr posPath), cevs ++ [.openRead posPath])
      | some posLines =>
        match getGenes posLines with
        | .error e => (.error e, cevs ++ [.openRead posPath])
        | .ok table =>
          match fs.read matrixPath with
          | none => (.error (.ioErr matrixPath),
                     cevs ++ [.openRead posPath, .openRead matrixPath])
          | some matrixLines =>
            match getExpressionMatrixDict matrixLines delim with
            | .error e => (.error e,
                           cevs ++ [.openRead posPath, .openRead matrixPath])
            | .ok matrix =>
              match computeGeneExpressionMeans matrix clusters with
              | .error e => (.error e,
                             cevs ++ [.openRead posPath, .openRead matrixPath])
              | .ok keyrows =>
                match getIdeogramAnnots table (clusters.map Prod.fst) keyrows.2 with
                | .error e => (.error e,
                               cevs ++ [.openRead posPath, .openRead matrixPath])
                | .ok out =>
                  (.ok out,
                   cevs ++ [.openRead posPath, .openRead matrixPath,
                            .openWrite outPath])

/-- The annotation's coordinates agree with its gene's parsed `start`
and `stop`: `length` is exactly `stop - start`. -/
def goodAnnot (table : List (String × GeneRec)) (a : Annot) : Prop :=
  ∃ grec st sp, List.lookup a.name table = some grec ∧
    parseInt grec.start = some st ∧ parseInt grec.stop = some sp ∧
    a.start = st ∧ a.length = sp - st

/-- All annotations in all chromosome buckets satisfy `p`. -/
def bucketsAll (p : Annot → Prop) (bs : List (String × List Annot)) : Prop :=
  ∀ pr ∈ bs, ∀ a ∈ pr.2, p a

/-! ## Helper lemmas -/

instance {ε α : Type} [DecidableEq ε] [DecidableEq α] : DecidableEq (Except ε α) :=
  fun a b =>
    match a, b with
    | .error e, .error f => decidable_of_iff (e = f) (by simp)
    | .error _, .ok _ => isFalse (fun h => Except.noConfusion h)
    | .ok _, .error _ => isFalse (fun h => Except.noConfusion h)
    | .ok x, .ok y => decidable_of_iff (x = y) (by simp)

/-- A successful `dict` lookup finds an entry of the association list. -/
theorem lookup_mem {β : Type} {k : String} {v : β} :
    ∀ {d : List (String × β)}, List.lookup k d = some v → (k, v) ∈ d := by
  intro d
  induction d with
  | nil => intro h; cases h
  | cons p rest ih =>
    intro h
    obtain ⟨k', v'⟩ := p
    rw [List.lookup] at h
    by_cases hk : k = k'
    · subst hk
      simp only [beq_self_eq_true] at h
      cases h
      exact List.mem_cons_self _ _
    · have hb : (k == k') = false := beq_eq_false_iff_ne.mpr hk
      rw [hb] at h
      exact List.mem_cons_of_mem _ (ih h)

/-! ## C1 -/

/-- C1: in cluster-mean computation, the expression value contributed
for a member cell `c` of a cluster is the element of the gene's
expression-value list at position `cell_index_map[c] - 1`: the
aggregator looks the cell's column position up in the cells dict and
subtracts exactly one before indexing the value list. -/
theorem contributed_value_is_at_index_minus_one
    (vals : List ℚ) (cells : List (String × Nat)) (pre post : List String)
    (c : String) (i : Nat) (es : List ℚ)
    (hc : List.lookup c cells = some i)
    (h : clusterExpressions vals cells (pre ++ c :: post) = .ok es) :
    es.get? pre.length = pyIdx vals ((i : Int) - 1) := by
  induction pre generalizing es with
  | nil =>
    simp only [List.nil_append, clusterExpressions, hc] at h
    cases hv : pyIdx vals ((i : Int) - 1) with
    | none => simp only [hv] at h; exact Except.noConfusion h
    | some v =>
      simp only [hv] at h
      cases hr : clusterExpressions vals cells post with
      | error e => simp only [hr] at h; exact Except.noConfusion h
      | ok vs =>
        simp only [hr] at h
        injection h with h4
        subst h4
        rfl
  | cons c' pre ih =>
    simp only [List.cons_append, clusterExpressions, List.append_eq] at h
    cases h1 : List.lookup c' cells with
    | none => simp only [h1] at h; exact Except.noConfusion h
    | some j =>
      simp only [h1] at h
      cases h2 : pyIdx vals ((j : Int) - 1) with
      | none => simp only [h2] at h; exact Except.noConfusion h
      | some v =>
        simp only [h2] at h
        cases h3 : clusterExpressions vals cells (pre ++ c :: post) with
        | error e => try simp only [h3] at h
                     exact Except.noConfusion h
        | ok vs =>
          try simp only [h3] at h
          injection h with h4
          subst h4
          simpa using ih vs h3

/-- Witness for C1 at a concrete input: the cell in column position 0
contributes the value at Python index `-1`. -/
theorem contributed_value_is_at_index_minus_one_witness :
    [(4 : ℚ)].get? 0 = pyIdx [(2 : ℚ), 4] ((0 : Int) - 1) :=
  contributed_value_is_at_index_minus_one [2, 4] [("CELLA-1", 0), ("CELLB-1", 1)]
    [] [] "CELLA-1" 0 [4] (by decide) (by decide)

/-! ## C2 -/

/-- An entry of `dictInsert d k v` is the new entry or one of `d`. -/
theorem mem_dictInsert {β : Type} {k : String} {v : β} {x : String × β} :
    ∀ {d : List (String × β)}, x ∈ dictInsert d k v → x = (k, v) ∨ x ∈ d := by
  intro d
  induction d with
  | nil => intro h; simp only [dictInsert, List.mem_singleton] at h; exact Or.inl h
  | cons p rest ih =>
    intro h
    obtain ⟨k', v'⟩ := p
    rw [dictInsert] at h
    by_cases hk : k' = k
    · rw [if_pos hk] at h
      rcases List.mem_cons.mp h with h | h
      · exact Or.inl h
      · exact Or.inr (List.mem_cons_of_mem _ h)
    · rw [if_neg hk] at h
      rcases List.mem_cons.mp h with h | h
      · exact Or.inr (h ▸ List.mem_cons_self _ _)
      · rcases ih h with h | h
        · exact Or.inl h
        · exact Or.inr (List.mem_cons_of_mem _ h)

/-- Every entry of the dict built by the header loop is either from the
initial accumulator or records the enumeration position of a header
token that normalizes to its key. -/
theorem buildCellsGo_mem {ts : List String} :
    ∀ {acc : List (String × Nat)} {n : Nat} {d : List (String × Nat)},
      buildCellsGo acc n ts = .ok d → ∀ x ∈ d,
      x ∈ acc ∨ ∃ k tok, ts.get? k = some tok ∧
        normalizeCell tok = some x.1 ∧ x.2 = n + k := by
  induction ts with
  | nil =>
    intro acc n d h x hx
    injection h with h'
    subst h'
    exact Or.inl hx
  | cons t ts ih =>
    intro acc n d h x hx
    simp only [buildCellsGo] at h
    cases hn : normalizeCell t with
    | none => simp only [hn] at h; exact Except.noConfusion h
    | some cnorm =>
      simp only [hn] at h
      rcases ih h x hx with hmem | ⟨k, tok, hget, hnorm, hi⟩
      · rcases mem_dictInsert hmem with rfl | hmem'
        · exact Or.inr ⟨0, t, rfl, hn, by simp⟩
        · exact Or.inl hmem'
      · exact Or.inr ⟨k + 1, tok, by simpa using hget, hnorm, by omega⟩

/-- A `get?` at an index below the length succeeds. -/
theorem get?_isSome_of_lt {α : Type} :
    ∀ (l : List α) (n : Nat), n < l.length → (l.get? n).isSome := by
  intro l
  induction l with
  | nil => intro n h; simp at h
  | cons a l ih =>
    intro n h
    cases n with
    | zero => rfl
    | succ n => simpa using ih n (by simpa using h)

/-- A successful `get?` is at an index below the length. -/
theorem lt_of_get?_eq_some {α : Type} :
    ∀ {l : List α} {n : Nat} {x : α}, l.get? n = some x → n < l.length := by
  intro l
  induction l with
  | nil => intro n x h; cases h
  | cons a l ih =>
    intro n x h
    cases n with
    | zero => simp
    | succ n => simpa using ih (by simpa using h)

/-- Python index `-1` on a nonempty list reads the entry at
`length - 1`. -/
theorem pyIdx_neg_one {α : Type} (l : List α) (h : l ≠ []) :
    pyIdx l (-1) = l.get? (l.length - 1) := by
  have hlen : l.length ≠ 0 := by simpa using fun hh => h (List.length_eq_zero.mp hh)
  rw [pyIdx, if_neg (by decide), if_neg (by omega)]
  congr 1
  omega

/-- Reading `get?` at `length - 1` gives the last element. -/
theorem get?_length_sub_one {α : Type} (l : List α) (_h : l ≠ []) :
    l.get? (l.length - 1) = l.getLast? := by
  rw [List.get?_eq_getElem?, List.getLast?_eq_getElem?]

/-- C2: the cells dict built by the matrix loader stores true zero-based
header-token positions (not positions offset by one); consequently,
whenever a gene's value row has exactly one value per header token, the
subtract-one adjustment always lands in the wrap-around-valid range
(indexing never fails), and for the cell of the first header token the
aggregator reads the gene's LAST expression value (Python index `-1`). -/
theorem cells_dict_zero_based_and_wraparound
    (tokens : List String) (d : List (String × Nat))
    (hd : buildCellsDict tokens = .ok d) :
    (∀ c i, (c, i) ∈ d →
       ∃ tok, tokens.get? i = some tok ∧ normalizeCell tok = some c)
    ∧ (∀ c i, (c, i) ∈ d → ∀ vals : List ℚ, vals.length = tokens.length →
        (pyIdx vals ((i : Int) - 1)).isSome)
    ∧ (∀ c, List.lookup c d = some 0 → ∀ vals : List ℚ,
        vals.length = tokens.length →
        ∃ v, vals.getLast? = some v ∧ clusterExpressions vals d [c] = .ok [v]) := by
  have hpos : ∀ c i, (c, i) ∈ d →
      ∃ tok, tokens.get? i = some tok ∧ normalizeCell tok = some c := by
    intro c i hm
    rcases buildCellsGo_mem hd (c, i) hm with hh | ⟨k, tok, hget, hnorm, hi⟩
    · simp at hh
    · refine ⟨tok, ?_, hnorm⟩
      have : i = k := by omega
      rw [this]
      exact hget
  have hsome : ∀ c i, (c, i) ∈ d → ∀ vals : List ℚ,
      vals.length = tokens.length → (pyIdx vals ((i : Int) - 1)).isSome := by
    intro c i hm vals hlen
    obtain ⟨tok, hget, _⟩ := hpos c i hm
    have hilt : i < tokens.length := lt_of_get?_eq_some hget
    cases i with
    | zero =>
      have hne : vals ≠ [] := by
        intro hnil
        rw [hnil] at hlen
        simp at hlen
        omega
      have : ((0 : Nat) : Int) - 1 = -1 := by decide
      rw [this, pyIdx_neg_one vals hne]
      exact get?_isSome_of_lt vals (vals.length - 1) (by
        have : vals.length ≠ 0 := by
          intro hh
          exact hne (List.length_eq_zero.mp hh)
        omega)
    | succ m =>
      rw [pyIdx, if_pos (by omega)]
      have : (((m + 1 : Nat) : Int) - 1).toNat = m := by omega
      rw [this]
      exact get?_isSome_of_lt vals m (by omega)
  refine ⟨hpos, hsome, ?_⟩
  intro c hl vals hlen
  have hm : (c, 0) ∈ d := lookup_mem hl
  obtain ⟨tok, hget, _⟩ := hpos c 0 hm
  have hilt : (0 : Nat) < tokens.length := lt_of_get?_eq_some hget
  have hne : vals ≠ [] := by
    intro hnil
    rw [hnil] at hlen
    simp at hlen
    omega
  have hlast : (vals.getLast?).isSome := by
    rw [← get?_length_sub_one vals hne]
    exact get?_isSome_of_lt vals (vals.length - 1) (by
      have : vals.length ≠ 0 := by
        intro hh
        exact hne (List.length_eq_zero.mp hh)
      omega)
  obtain ⟨v, hv⟩ := Option.isSome_iff_exists.mp hlast
  refine ⟨v, hv, ?_⟩
  have hidx : pyIdx vals (((0 : Nat) : Int) - 1) = some v := by
    have h01 : ((0 : Nat) : Int) - 1 = -1 := by decide
    rw [h01, pyIdx_neg_one vals hne, get?_length_sub_one vals hne, hv]
  simp only [clusterExpressions, hl, hidx]

/-- Witness for C2 at a concrete input: for the cell stored at position
0 the adjusted index is in range. -/
theorem cells_dict_zero_based_and_wraparound_witness :
    (pyIdx [(2 : ℚ), 4] (((0 : Nat) : Int) - 1)).isSome :=
  (cells_dict_zero_based_and_wraparound
      ["\"PREVIZ.CELLA.1\"", "\"PREVIZ.CELLB.1\""]
      [("CELLA-1", 0), ("CELLB-1", 1)] (by decide)).2.1
    "CELLA-1" 0 (by decide) [2, 4] (by decide)

/-! ## C4 -/

/-- C4: a cluster whose member-cell list, after lookup against the
expression matrix, yields zero expression values makes the aggregator
signal a DataError (the explicit empty-aggregation error of
`statistics.mean`) rather than silently emitting any value as that
cluster's mean. -/
theorem empty_cluster_mean_raises_data_error
    (vals : List ℚ) (cells : List (String × Nat)) (members : List String)
    (h : clusterExpressions vals cells members = .ok []) :
    clusterScore vals cells members =
      .error (.data "mean requires at least one data point")
    ∧ ∀ q : ℚ, clusterScore vals cells members ≠ .ok q := by
  have hs : clusterScore vals cells members =
      .error (.data "mean requires at least one data point") := by
    simp [clusterScore, h, pyMean]
  refine ⟨hs, ?_⟩
  intro q hq
  rw [hs] at hq
  exact Except.noConfusion hq

/-- Witness for C4: the empty member list yields the DataError. -/
theorem empty_cluster_mean_raises_data_error_witness :
    clusterScore [(2 : ℚ), 4] [("CELLA-1", 0)] [] =
      .error (.data "mean requires at least one data point") :=
  (empty_cluster_mean_raises_data_error [2, 4] [("CELLA-1", 0)] [] rfl).1

/-! ## C5 -/

/-- Each row produced by the gene loop carries the gene of the
corresponding matrix entry, and its first mean is
`round(mean(full row), 3)` — an expression that does not mention the
clusters. -/
theorem geneRows_mean_all {cells : List (String × Nat)}
    {clusters : List (String × List String)} :
    ∀ {genes : List (String × List ℚ)} {rows : List ScoreRow},
      geneRows cells clusters genes = .ok rows → ∀ k,
      (rows.get? k).map (fun r => (r.gene, r.means.head?))
        = (genes.get? k).map
            (fun gv => (gv.1, ((pyMean gv.2).toOption).map round3)) := by
  intro genes
  induction genes with
  | nil =>
    intro rows h k
    injection h with h'
    subst h'
    rfl
  | cons gv rest ih =>
    intro rows h k
    simp only [geneRows] at h
    cases hm : pyMean gv.2 with
    | error e => simp only [hm] at h; exact Except.noConfusion h
    | ok m =>
      simp only [hm] at h
      cases hs : clusterScores gv.2 cells clusters with
      | error e => simp only [hs] at h; exact Except.noConfusion h
      | ok ss =>
        simp only [hs] at h
        cases hr : geneRows cells clusters rest with
        | error e => simp only [hr] at h; exact Except.noConfusion h
        | ok rows' =>
          simp only [hr] at h
          injection h with h'
          subst h'
          cases k with
          | zero => simp [hm, Except.toOption]
          | succ k => simpa using ih hr k

/-- C5: for every gene, the `mean_all` field of its aggregate row is the
arithmetic mean of the gene's full expression row rounded to 3 decimal
places, and it does not depend on the cluster definitions supplied to
the run. -/
theorem mean_all_is_round3_of_full_row_mean
    (matrix : EMDict) (clusters : List (String × List String))
    (keys : List String) (rows : List ScoreRow)
    (h : computeGeneExpressionMeans matrix clusters = .ok (keys, rows)) :
    (∀ k, (rows.get? k).map (fun r => (r.gene, r.means.head?))
        = (matrix.genes.get? k).map
            (fun gv => (gv.1, ((pyMean gv.2).toOption).map round3)))
    ∧ ∀ clusters2 keys2 rows2,
        computeGeneExpressionMeans matrix clusters2 = .ok (keys2, rows2) →
        ∀ k, (rows2.get? k).map (fun r => (r.gene, r.means.head?))
          = (rows.get? k).map (fun r => (r.gene, r.means.head?)) := by
  have main : ∀ {cl : List (String × List String)} {ks : List String}
      {rs : List ScoreRow},
      computeGeneExpressionMeans matrix cl = .ok (ks, rs) → ∀ k,
      (rs.get? k).map (fun r => (r.gene, r.means.head?))
        = (matrix.genes.get? k).map
            (fun gv => (gv.1, ((pyMean gv.2).toOption).map round3)) := by
    intro cl ks rs h k
    rw [computeGeneExpressionMeans] at h
    cases hg : geneRows matrix.cells cl matrix.genes with
    | error e => simp only [hg] at h; exact Except.noConfusion h
    | ok rows' =>
      simp only [hg] at h
      injection h with h'
      rw [Prod.mk.injEq] at h'
      obtain ⟨-, h2⟩ := h'
      subst h2
      exact geneRows_mean_all hg k
  exact ⟨fun k => main h k,
         fun cl2 ks2 rs2 h2 k => (main h2 k).trans (main h k).symm⟩

/-! ## Concrete evaluation of the spec's scenario -/

theorem parseFloat_two : parseFloat "2.0" = some 2 := by
  have h : parseFloatParts "2.0" = some (false, 2, 0, 1) := by decide
  rw [parseFloat, h]
  norm_num [floatOfParts]

theorem parseFloat_four : parseFloat "4.0" = some 4 := by
  have h : parseFloatParts "4.0" = some (false, 4, 0, 1) := by decide
  rw [parseFloat, h]
  norm_num [floatOfParts]

/-- The scenario matrix parses to the expected cells and genes dicts. -/
theorem scenarioMatrixEval :
    getExpressionMatrixDict
      ["\"PREVIZ.CELLA.1\"\t\"PREVIZ.CELLB.1\"", "\"G1\"\t2.0\t4.0"] "\t"
      = .ok ⟨[("CELLA-1", 0), ("CELLB-1", 1)], [("G1", [2, 4])]⟩ := by
  have hc : buildCellsDict
      (pySplit (pyStrip "\"PREVIZ.CELLA.1\"\t\"PREVIZ.CELLB.1\"") "\t")
      = .ok [("CELLA-1", 0), ("CELLB-1", 1)] := by decide
  have hs : pySplit (pyStrip "\"G1\"\t2.0\t4.0") "\t"
      = ["\"G1\"", "2.0", "4.0"] := by decide
  have hq : stripQuotes "\"G1\"" = "G1" := by decide
  have hvals : parseFloats ["2.0", "4.0"] = some [2, 4] := by
    simp only [parseFloats, parseFloat_two, parseFloat_four]
  have hrow : parseMatrixRow "\t" "\"G1\"\t2.0\t4.0" = .ok ("G1", [2, 4]) := by
    simp only [parseMatrixRow, hs, hvals, hq]
  have hgenes : buildGenes "\t" ["\"G1\"\t2.0\t4.0"] = .ok [("G1", [2, 4])] := by
    simp only [buildGenes, buildGenesGo, hrow, dictInsert]
  simp only [getExpressionMatrixDict, hc, hgenes]

theorem round3_three : round3 3 = 3 := by
  norm_num [round3, roundHalfEven]

theorem round3_four : round3 4 = 4 := by
  norm_num [round3, roundHalfEven]

/-- On the scenario matrix the aggregator yields the single score row
`["G1", 3.0, 4.0]` under the header `['name', 'all', 'clusterA']`. -/
theorem scenarioComputeEval :
    computeGeneExpressionMeans
      ⟨[("CELLA-1", 0), ("CELLB-1", 1)], [("G1", [2, 4])]⟩
      [("clusterA", ["CELLA-1"])]
      = .ok (["name", "all", "clusterA"], [⟨"G1", [3, 4]⟩]) := by
  have hce : clusterExpressions [(2 : ℚ), 4] [("CELLA-1", 0), ("CELLB-1", 1)]
      ["CELLA-1"] = .ok [4] := by decide
  have hm4 : pyMean [(4 : ℚ)] = .ok 4 := by
    rw [pyMean, if_neg (by simp)]
    norm_num
  have hcs : clusterScore [(2 : ℚ), 4] [("CELLA-1", 0), ("CELLB-1", 1)]
      ["CELLA-1"] = .ok 4 := by
    simp only [clusterScore, hce, hm4, round3_four]
  have hm : pyMean [(2 : ℚ), 4] = .ok 3 := by
    rw [pyMean, if_neg (by simp)]
    norm_num
  have hrows : geneRows [("CELLA-1", 0), ("CELLB-1", 1)]
      [("clusterA", ["CELLA-1"])] [("G1", [(2 : ℚ), 4])]
      = .ok [⟨"G1", [3, 4]⟩] := by
    simp only [geneRows, clusterScores, hm, hcs, round3_three]
  simp only [computeGeneExpressionMeans, hrows, List.map]

/-- The scenario position table parses to the expected gene record. -/
theorem scenarioGenesEval :
    getGenes ["G1 chr1 100 200"]
      = .ok [("G1", ⟨"G1", "chr1", "100", "200"⟩)] := by decide

/-- On the scenario data the assembler emits `["G1", 100, 100, 3.0, 4.0]`
in the bucket for chromosome `chr1`. -/
theorem scenarioAnnotsEval :
    getIdeogramAnnots [("G1", ⟨"G1", "chr1", "100", "200"⟩)] ["clusterA"]
      [⟨"G1", [3, 4]⟩]
      = .ok ⟨["name", "start", "length", "all", "clusterA"],
             [("chr1", [⟨"G1", 100, 100, [3, 4]⟩])]⟩ := by decide

/-! ## C3 -/

/-- C3: on the spec's concrete scenario — position line `G1 chr1 100 200`,
matrix header `"PREVIZ.CELLA.1"	"PREVIZ.CELLB.1"`, data row
`"G1"	2.0	4.0`, one cluster `clusterA` containing `CELLA-1` — the
aggregate row for `G1` begins `["G1", 3.0, ...]` and the emitted
annotation is `["G1", 100, 100, 3.0, ...]` in the bucket for chromosome
`chr1`. -/
theorem scenario_aggregate_row_and_emitted_annot :
    getExpressionMatrixDict
      ["\"PREVIZ.CELLA.1\"\t\"PREVIZ.CELLB.1\"", "\"G1\"\t2.0\t4.0"] "\t"
      = .ok ⟨[("CELLA-1", 0), ("CELLB-1", 1)], [("G1", [2, 4])]⟩
    ∧ computeGeneExpressionMeans
        ⟨[("CELLA-1", 0), ("CELLB-1", 1)], [("G1", [2, 4])]⟩
        [("clusterA", ["CELLA-1"])]
        = .ok (["name", "all", "clusterA"], [⟨"G1", [3, 4]⟩])
    ∧ getGenes ["G1 chr1 100 200"]
        = .ok [("G1", ⟨"G1", "chr1", "100", "200"⟩)]
    ∧ getIdeogramAnnots [("G1", ⟨"G1", "chr1", "100", "200"⟩)] ["clusterA"]
        [⟨"G1", [3, 4]⟩]
        = .ok ⟨["name", "start", "length", "all", "clusterA"],
               [("chr1", [⟨"G1", 100, 100, [3, 4]⟩])]⟩ :=
  ⟨scenarioMatrixEval, scenarioComputeEval, scenarioGenesEval, scenarioAnnotsEval⟩

/-- Witness for C5 at the scenario input. -/
theorem mean_all_is_round3_of_full_row_mean_witness :
    ([ScoreRow.mk "G1" [3, 4]].get? 0).map (fun r => (r.gene, r.means.head?))
      = ([("G1", [(2 : ℚ), 4])].get? 0).map
          (fun gv => (gv.1, ((pyMean gv.2).toOption).map round3)) :=
  (mean_all_is_round3_of_full_row_mean
      ⟨[("CELLA-1", 0), ("CELLB-1", 1)], [("G1", [2, 4])]⟩
      [("clusterA", ["CELLA-1"])] ["name", "all", "clusterA"]
      [⟨"G1", [3, 4]⟩] scenarioComputeEval).1 0

/-! ## C6 -/

/-- Appending via `bucketAppend` preserves a per-annotation invariant. -/
theorem bucketsAll_bucketAppend (p : Annot → Prop) (chr : String) (a : Annot) :
    ∀ {bs : List (String × List Annot)}, bucketsAll p bs → p a →
      bucketsAll p (bucketAppend bs chr a) := by
  intro bs
  induction bs with
  | nil =>
    intro _ ha pr hpr b hb
    rw [bucketAppend, List.mem_singleton] at hpr
    subst hpr
    rw [List.mem_singleton] at hb
    subst hb
    exact ha
  | cons q rest ih =>
    intro h ha pr hpr b hb
    obtain ⟨c, as⟩ := q
    rw [bucketAppend] at hpr
    by_cases hc : c = chr
    · rw [if_pos hc] at hpr
      rcases List.mem_cons.mp hpr with rfl | hpr'
      · rcases List.mem_append.mp hb with hb' | hb'
        · exact h (c, as) (List.mem_cons_self _ _) b hb'
        · rw [List.mem_singleton] at hb'
          subst hb'
          exact ha
      · exact h _ (List.mem_cons_of_mem _ hpr') b hb
    · rw [if_neg hc] at hpr
      rcases List.mem_cons.mp hpr with rfl | hpr'
      · exact h _ (List.mem_cons_self _ _) b hb
      · have hrest : bucketsAll p rest :=
          fun pr' hpr'' a' ha' => h pr' (List.mem_cons_of_mem _ hpr'') a' ha'
        exact ih hrest ha pr hpr' b hb

/-- Every annotation the assembling loop adds records its gene's parsed
coordinates. -/
theorem assembleAnnots_good (table : List (String × GeneRec)) :
    ∀ {rows : List ScoreRow} {acc bs : List (String × List Annot)},
      assembleAnnots table acc rows = .ok bs →
      bucketsAll (goodAnnot table) acc → bucketsAll (goodAnnot table) bs := by
  intro rows
  induction rows with
  | nil =>
    intro acc bs h hacc
    injection h with h'
    subst h'
    exact hacc
  | cons row rest ih =>
    intro acc bs h hacc
    simp only [assembleAnnots] at h
    cases hl : List.lookup row.gene table with
    | none => simp only [hl] at h; exact Except.noConfusion h
    | some grec =>
      simp only [hl] at h
      cases hst : parseInt grec.start with
      | none => simp only [hst] at h; exact Except.noConfusion h
      | some st =>
        simp only [hst] at h
        cases hsp : parseInt grec.stop with
        | none => simp only [hsp] at h; exact Except.noConfusion h
        | some sp =>
          simp only [hsp] at h
          exact ih h (bucketsAll_bucketAppend (goodAnnot table) grec.chr _ hacc
            ⟨grec, st, sp, hl, hst, hsp, rfl, rfl⟩)

/-- C6: for every gene present in both the position table and the
aggregate rows, the `length` field of its emitted annotation equals
`stop - start` computed by exact integer subtraction of the values
parsed from the position file (and `start` is the parsed start). -/
theorem annotation_length_is_stop_minus_start
    (table : List (String × GeneRec)) (clusterNames : List String)
    (rows : List ScoreRow) (out : IdeoOut)
    (h : getIdeogramAnnots table clusterNames rows = .ok out) :
    ∀ pr ∈ out.annots, ∀ a ∈ pr.2, ∃ grec st sp,
      List.lookup a.name table = some grec ∧
      parseInt grec.start = some st ∧ parseInt grec.stop = some sp ∧
      a.start = st ∧ a.length = sp - st := by
  rw [getIdeogramAnnots] at h
  cases ha : assembleAnnots table [] rows with
  | error e => simp only [ha] at h; exact Except.noConfusion h
  | ok bs =>
    simp only [ha] at h
    injection h with h'
    subst h'
    intro pr hpr a hA
    exact assembleAnnots_good table ha
      (fun pr' hpr' a' ha' => absurd hpr' (List.not_mem_nil pr')) pr hpr a hA

/-- Witness for C6 at the scenario output: the `G1` annotation's length
is `200 - 100`. -/
theorem annotation_length_is_stop_minus_start_witness :
    ∃ grec st sp,
      List.lookup (Annot.mk "G1" 100 100 [(3 : ℚ), 4]).name
        [("G1", GeneRec.mk "G1" "chr1" "100" "200")] = some grec ∧
      parseInt grec.start = some st ∧ parseInt grec.stop = some sp ∧
      (Annot.mk "G1" 100 100 [(3 : ℚ), 4]).start = st ∧
      (Annot.mk "G1" 100 100 [(3 : ℚ), 4]).length = sp - st :=
  annotation_length_is_stop_minus_start
    [("G1", ⟨"G1", "chr1", "100", "200"⟩)] ["clusterA"] [⟨"G1", [3, 4]⟩]
    ⟨["name", "start", "length", "all", "clusterA"],
     [("chr1", [⟨"G1", 100, 100, [3, 4]⟩])]⟩
    scenarioAnnotsEval
    ("chr1", [⟨"G1", 100, 100, [3, 4]⟩]) (by simp)
    ⟨"G1", 100, 100, [3, 4]⟩ (by simp)

/-! ## C8 -/

/-- If some row's gene is absent from the gene table (and the table's
coordinates are parseable, so no earlier `ValueError` intervenes), the
assembling loop stops with the `KeyError` of `genes[gene_id]`. -/
theorem assembleAnnots_missing (table : List (String × GeneRec))
    (hclean : ∀ g grec, List.lookup g table = some grec →
        (parseInt grec.start).isSome ∧ (parseInt grec.stop).isSome) :
    ∀ {rows : List ScoreRow},
      (∃ row ∈ rows, List.lookup row.gene table = none) →
      ∃ g, List.lookup g table = none ∧ ∀ acc,
        assembleAnnots table acc rows = .error (.lookup g) := by
  intro rows
  induction rows with
  | nil =>
    intro h
    obtain ⟨row, hm, -⟩ := h
    exact absurd hm (List.not_mem_nil row)
  | cons row rest ih =>
    intro h
    cases hl : List.lookup row.gene table with
    | none => exact ⟨row.gene, hl, fun acc => by simp only [assembleAnnots, hl]⟩
    | some grec =>
      obtain ⟨hst, hsp⟩ := hclean row.gene grec hl
      obtain ⟨st, hst'⟩ := Option.isSome_iff_exists.mp hst
      obtain ⟨sp, hsp'⟩ := Option.isSome_iff_exists.mp hsp
      obtain ⟨row', hm, hnone⟩ := h
      rcases List.mem_cons.mp hm with rfl | hm'
      · rw [hl] at hnone
        exact Option.noConfusion hnone
      · obtain ⟨g, hg, hass⟩ := ih ⟨row', hm', hnone⟩
        exact ⟨g, hg, fun acc => by
          simp only [assembleAnnots, hl, hst', hsp', hass]⟩

/-- C8: an aggregate score row whose gene identifier is absent from the
gene table makes annotation assembly fail with a LookupError — it is
never silently skipped (the table is assumed coordinate-parseable so
that no `ValueError` from `int()` strikes first). -/
theorem missing_gene_fails_with_lookup_error
    (table : List (String × GeneRec)) (clusterNames : List String)
    (rows : List ScoreRow)
    (hclean : ∀ g grec, List.lookup g table = some grec →
        (parseInt grec.start).isSome ∧ (parseInt grec.stop).isSome)
    (hmiss : ∃ row ∈ rows, List.lookup row.gene table = none) :
    ∃ g, List.lookup g table = none ∧
      getIdeogramAnnots table clusterNames rows = .error (.lookup g) := by
  obtain ⟨g, hg, hass⟩ := assembleAnnots_missing table hclean hmiss
  exact ⟨g, hg, by simp only [getIdeogramAnnots, hass]⟩

/-- Witness for C8: a row for `G2` against a table holding only `G1`. -/
theorem missing_gene_fails_with_lookup_error_witness :
    ∃ g, List.lookup g [("G1", GeneRec.mk "G1" "chr1" "100" "200")] = none ∧
      getIdeogramAnnots [("G1", GeneRec.mk "G1" "chr1" "100" "200")]
        ["clusterA"] [⟨"G2", [3, 4]⟩] = .error (.lookup g) :=
  missing_gene_fails_with_lookup_error
    [("G1", ⟨"G1", "chr1", "100", "200"⟩)] ["clusterA"] [⟨"G2", [3, 4]⟩]
    (by
      intro g grec h
      rw [List.lookup] at h
      cases hb : (g == "G1") with
      | true =>
        rw [hb] at h
        injection h with h'
        subst h'
        exact ⟨by decide, by decide⟩
      | false =>
        rw [hb] at h
        exact Option.noConfusion h)
    ⟨⟨"G2", [3, 4]⟩, List.mem_singleton.mpr rfl, by decide⟩

/-! ## C7 -/

/-- C7: when the count of cluster names differs from the count of
cluster paths the run fails with the configuration error, and the file
trace is empty — the validation precedes every file open. -/
theorem mismatched_cluster_args_fail_before_any_io
    (fs : FS) (matrixPath delim posPath : String) (names paths : List String)
    (outPath : String) (h : names.length ≠ paths.length) :
    runMain fs matrixPath delim posPath names paths outPath =
      (.error (.config "Number of cluster names must equal length of cluster paths"),
       []) := by
  simp only [runMain, getClustersMeta]
  rw [if_pos h]

/-- Witness for C7: one name, no paths, on a file system where every
read would succeed. -/
theorem mismatched_cluster_args_fail_before_any_io_witness :
    runMain ⟨fun _ => some []⟩ "matrix.txt" "\t" "gen_pos.txt" ["a"] []
        "out.json" =
      (.error (.config "Number of cluster names must equal length of cluster paths"),
       []) :=
  mismatched_cluster_args_fail_before_any_io ⟨fun _ => some []⟩ "matrix.txt"
    "\t" "gen_pos.txt" ["a"] [] "out.json" (by decide)

/-! ## C9 -/

/-- The cluster loader's trace holds only read events. -/
theorem getClustersTr_events (fs : FS) :
    ∀ (meta : List (String × String)) (ev : IOEvent),
      ev ∈ (getClustersTr fs meta).2 → ∃ p, ev = .openRead p := by
  intro meta
  induction meta with
  | nil => intro ev h; simp [getClustersTr] at h
  | cons np rest ih =>
    intro ev h
    obtain ⟨name, path⟩ := np
    rw [getClustersTr] at h
    cases hr : fs.read path with
    | none =>
      simp only [hr] at h
      rw [List.mem_singleton] at h
      exact ⟨path, h⟩
    | some lines =>
      simp only [hr] at h
      cases hp : parseClusterLines lines with
      | error e =>
        simp only [hp] at h
        rw [List.mem_singleton] at h
        exact ⟨path, h⟩
      | ok cells =>
        simp only [hp] at h
        cases hrec : getClustersTr fs rest with
        | mk res evs =>
          simp only [hrec] at h
          cases res with
          | error e =>
            rcases List.mem_cons.mp h with rfl | h'
            · exact ⟨path, rfl⟩
            · exact ih ev (by rw [hrec]; exact h')
          | ok cls =>
            rcases List.mem_cons.mp h with rfl | h'
            · exact ⟨path, rfl⟩
            · exact ih ev (by rw [hrec]; exact h')

/-- A write event is not among two read events. -/
theorem openWrite_not_mem_two_reads (p q r : String) :
    IOEvent.openWrite p ∉ [IOEvent.openRead q, IOEvent.openRead r] := by
  intro h
  rcases List.mem_cons.mp h with h1 | h1
  · exact IOEvent.noConfusion h1
  · rw [List.mem_singleton] at h1
    exact IOEvent.noConfusion h1

/-- C9: if any error occurs anywhere in the pipeline, the output file is
never opened for writing — the run either completes and then writes, or
writes nothing. -/
theorem pipeline_error_writes_no_output
    (fs : FS) (matrixPath delim posPath : String) (names paths : List String)
    (outPath : String) (e : PipeErr)
    (h : (runMain fs matrixPath delim posPath names paths outPath).1 = .error e) :
    ∀ p, IOEvent.openWrite p ∉
      (runMain fs matrixPath delim posPath names paths outPath).2 := by
  intro p hmem
  rcases hm : getClustersMeta names paths with em | meta
  · simp only [runMain, hm] at hmem
    exact absurd hmem (List.not_mem_nil _)
  · rcases hc : getClustersTr fs meta with ⟨cres, cevs⟩
    have hcevs : ∀ ev, ev ∈ cevs → ∃ q, ev = IOEvent.openRead q := by
      intro ev hev
      apply getClustersTr_events fs meta
      rw [hc]
      exact hev
    cases cres with
    | error e2 =>
      simp only [runMain, hm, hc] at hmem
      obtain ⟨q, hq⟩ := hcevs _ hmem
      exact IOEvent.noConfusion hq
    | ok clusters =>
      cases hposr : fs.read posPath with
      | none =>
        simp only [runMain, hm, hc, hposr] at hmem
        rcases List.mem_append.mp hmem with hmem' | hmem'
        · obtain ⟨q, hq⟩ := hcevs _ hmem'
          exact IOEvent.noConfusion hq
        · rw [List.mem_singleton] at hmem'
          exact IOEvent.noConfusion hmem'
      | some posLines =>
        cases hgg : getGenes posLines with
        | error e2 =>
          simp only [runMain, hm, hc, hposr, hgg] at hmem
          rcases List.mem_append.mp hmem with hmem' | hmem'
          · obtain ⟨q, hq⟩ := hcevs _ hmem'
            exact IOEvent.noConfusion hq
          · rw [List.mem_singleton] at hmem'
            exact IOEvent.noConfusion hmem'
        | ok table =>
          cases hmr : fs.read matrixPath with
          | none =>
            simp only [runMain, hm, hc, hposr, hgg, hmr] at hmem
            rcases List.mem_append.mp hmem with hmem' | hmem'
            · obtain ⟨q, hq⟩ := hcevs _ hmem'
              exact IOEvent.noConfusion hq
            · exact openWrite_not_mem_two_reads p posPath matrixPath hmem'
          | some matrixLines =>
            cases hemd : getExpressionMatrixDict matrixLines delim with
            | error e2 =>
              simp only [runMain, hm, hc, hposr, hgg, hmr, hemd] at hmem
              rcases List.mem_append.mp hmem with hmem' | hmem'
              · obtain ⟨q, hq⟩ := hcevs _ hmem'
                exact IOEvent.noConfusion hq
              · exact openWrite_not_mem_two_reads p posPath matrixPath hmem'
            | ok matrix =>
              cases hcgm : computeGeneExpressionMeans matrix clusters with
              | error e2 =>
                simp only [runMain, hm, hc, hposr, hgg, hmr, hemd, hcgm] at hmem
                rcases List.mem_append.mp hmem with hmem' | hmem'
                · obtain ⟨q, hq⟩ := hcevs _ hmem'
                  exact IOEvent.noConfusion hq
                · exact openWrite_not_mem_two_reads p posPath matrixPath hmem'
              | ok keyrows =>
                cases hia : getIdeogramAnnots table (clusters.map Prod.fst)
                    keyrows.2 with
                | error e2 =>
                  simp only [runMain, hm, hc, hposr, hgg, hmr, hemd, hcgm, hia] at hmem
                  rcases List.mem_append.mp hmem with hmem' | hmem'
                  · obtain ⟨q, hq⟩ := hcevs _ hmem'
                    exact IOEvent.noConfusion hq
                  · exact openWrite_not_mem_two_reads p posPath matrixPath hmem'
                | ok out =>
                  simp only [runMain, hm, hc, hposr, hgg, hmr, hemd, hcgm, hia] at h
                  exact Except.noConfusion h

/-- Witness for C9: a run whose position file is unreadable errors out
and its trace holds no write. -/
theorem pipeline_error_writes_no_output_witness :
    IOEvent.openWrite "out.json" ∉
      (runMain ⟨fun _ => none⟩ "matrix.txt" "\t" "gen_pos.txt" [] []
        "out.json").2 :=
  pipeline_error_writes_no_output ⟨fun _ => none⟩ "matrix.txt" "\t"
    "gen_pos.txt" [] [] "out.json" (.ioErr "gen_pos.txt") (by decide)
    "out.json"

/-! ## C10 -/

/-- Permuting a cluster's member list permutes the list of looked-up
expression values (when the lookups succeed). -/
theorem clusterExpressions_perm (vals : List ℚ) (cells : List (String × Nat))
    {m₁ m₂ : List String} (hp : m₁.Perm m₂) :
    ∀ {es₁ : List ℚ}, clusterExpressions vals cells m₁ = .ok es₁ →
      ∃ es₂, clusterExpressions vals cells m₂ = .ok es₂ ∧ es₁.Perm es₂ := by
  induction hp with
  | nil =>
    intro es₁ h
    injection h with h'
    exact ⟨[], rfl, by rw [← h']⟩
  | cons x p ih =>
    rename_i t₁ t₂
    intro es₁ h
    simp only [clusterExpressions] at h
    cases hl : List.lookup x cells with
    | none => simp only [hl] at h; exact Except.noConfusion h
    | some i =>
      simp only [hl] at h
      cases hv : pyIdx vals ((i : Int) - 1) with
      | none => simp only [hv] at h; exact Except.noConfusion h
      | some v =>
        simp only [hv] at h
        cases hr : clusterExpressions vals cells t₁ with
        | error e => simp only [hr] at h; exact Except.noConfusion h
        | ok vs =>
          simp only [hr] at h
          injection h with h'
          obtain ⟨vs₂, h₂, pp⟩ := ih hr
          refine ⟨v :: vs₂, ?_, ?_⟩
          · simp only [clusterExpressions, hl, hv, h₂]
          · rw [← h']
            exact pp.cons v
  | swap x y l =>
    intro es₁ h
    simp only [clusterExpressions] at h ⊢
    cases hly : List.lookup y cells with
    | none => simp only [hly] at h; exact Except.noConfusion h
    | some iy =>
      simp only [hly] at h
      cases hvy : pyIdx vals ((iy : Int) - 1) with
      | none => simp only [hvy] at h; exact Except.noConfusion h
      | some vy =>
        simp only [hvy] at h
        cases hlx : List.lookup x cells with
        | none => simp only [hlx] at h; exact Except.noConfusion h
        | some ix =>
          simp only [hlx] at h
          cases hvx : pyIdx vals ((ix : Int) - 1) with
          | none => simp only [hvx] at h; exact Except.noConfusion h
          | some vx =>
            simp only [hvx] at h
            cases hr : clusterExpressions vals cells l with
            | error e => simp only [hr] at h; exact Except.noConfusion h
            | ok vs =>
              simp only [hr] at h
              injection h with h'
              refine ⟨vx :: vy :: vs, ?_, ?_⟩
              · simp only [hlx, hvx, hly, hvy, hr]
              · rw [← h']
                exact List.Perm.swap vx vy vs
  | trans p₁ p₂ ih₁ ih₂ =>
    intro es₁ h
    obtain ⟨es₂, h₂, pp⟩ := ih₁ h
    obtain ⟨es₃, h₃, pp'⟩ := ih₂ h₂
    exact ⟨es₃, h₃, pp.trans pp'⟩

/-- Model fact: `statistics.mean` is invariant under permutation of its data. -/
theorem pyMean_perm (l₁ l₂ : List ℚ) (hp : l₁.Perm l₂) :
    pyMean l₁ = pyMean l₂ := by
  by_cases h : l₁ = []
  · subst h
    have h2 : l₂ = [] := (List.Perm.eq_nil hp.symm)
    subst h2
    rfl
  · have h2 : l₂ ≠ [] := fun hh => h (List.Perm.eq_nil (hh ▸ hp))
    rw [pyMean, pyMean, if_neg h, if_neg h2, List.Perm.sum_eq hp,
      List.Perm.length_eq hp]

/-- C10: for every gene and cluster, the cluster mean computed by the
aggregator is invariant under any permutation (duplicates retained) of
the order in which cells appear in the cluster's membership list; and
assigning different cells to the cluster can change the mean. -/
theorem cluster_mean_invariant_under_membership_permutation
    (vals : List ℚ) (cells : List (String × Nat)) (m₁ m₂ : List String)
    (q : ℚ) (hp : m₁.Perm m₂) (h : clusterScore vals cells m₁ = .ok q) :
    clusterScore vals cells m₂ = .ok q
    ∧ ∃ (vals2 : List ℚ) (cells2 : List (String × Nat))
        (ma mb : List String) (qa qb : ℚ),
        clusterScore vals2 cells2 ma = .ok qa ∧
        clusterScore vals2 cells2 mb = .ok qb ∧ qa ≠ qb := by
  constructor
  · cases hce : clusterExpressions vals cells m₁ with
    | error e => simp only [clusterScore, hce] at h; exact Except.noConfusion h
    | ok es =>
      simp only [clusterScore, hce] at h
      obtain ⟨es₂, hce₂, pp⟩ := clusterExpressions_perm vals cells hp hce
      have hmm := pyMean_perm es es₂ pp
      cases hm : pyMean es with
      | error e => simp only [hm] at h; exact Except.noConfusion h
      | ok m =>
        simp only [hm] at h
        injection h with h'
        have hm₂ : pyMean es₂ = .ok m := hmm.symm.trans hm
        rw [← h']
        simp only [clusterScore, hce₂, hm₂]
  · refine ⟨[1, 2], [("a", 0), ("b", 1)], ["a"], ["b"], 2, 1, ?_, ?_, by norm_num⟩
    · have hce : clusterExpressions [(1 : ℚ), 2] [("a", 0), ("b", 1)] ["a"]
          = .ok [2] := by decide
      have hm : pyMean [(2 : ℚ)] = .ok 2 := by
        rw [pyMean, if_neg (by simp)]
        norm_num
      have hr : round3 2 = 2 := by norm_num [round3, roundHalfEven]
      simp only [clusterScore, hce, hm, hr]
    · have hce : clusterExpressions [(1 : ℚ), 2] [("a", 0), ("b", 1)] ["b"]
          = .ok [1] := by decide
      have hm : pyMean [(1 : ℚ)] = .ok 1 := by
        rw [pyMean, if_neg (by simp)]
        norm_num
      have hr : round3 1 = 1 := by norm_num [round3, roundHalfEven]
      simp only [clusterScore, hce, hm, hr]

/-- Witness for C10: swapping the two members of a cluster leaves the
rounded mean unchanged. -/
theorem cluster_mean_invariant_witness :
    clusterScore [(1 : ℚ), 2] [("a", 0), ("b", 1)] ["b", "a"] = .ok (3/2) :=
  (cluster_mean_invariant_under_membership_permutation [1, 2]
    [("a", 0), ("b", 1)] ["a", "b"] ["b", "a"] (3/2)
    (List.Perm.swap "b" "a" [])
    (by
      have hce : clusterExpressions [(1 : ℚ), 2] [("a", 0), ("b", 1)]
          ["a", "b"] = .ok [2, 1] := by decide
      have hm : pyMean [(2 : ℚ), 1] = .ok (3/2) := by
        rw [pyMean, if_neg (by simp)]
        norm_num
      have hr : round3 (3/2) = 3/2 := by norm_num [round3, roundHalfEven]
      simp only [clusterScore, hce, hm, hr])).1

end InferCNV
